import Mathlib

/- Shallow embedding of exchange_factory.py (CCXT Binance Futures Testnet
   Fix).  Python dicts with string keys are modelled as insertion-ordered
   association lists with overwrite-on-existing-key semantics; JSON numbers
   (parsed by the Python float constructor) are modelled as exact rationals;
   optional JSON fields are modelled with Option.  The HTTP layer is modelled
   by passing the response status and decoded body as explicit arguments to
   each patched method; raising an exception is modelled with Except.error
   carrying the decoded body. -/

namespace ExchangeFactory

/-- Association-list lookup, the model of Python dict indexing and of the
    get method: the first entry with the given key. -/
def lookupKey (k : String) : List (String × α) → Option α
  | [] => none
  | p :: rest => if p.1 = k then some p.2 else lookupKey k rest

/-- Python membership test of a key in a dict. -/
def hasKey (d : List (String × α)) (k : String) : Bool :=
  (lookupKey k d).isSome

/-- Python dict assignment d[k] = v: overwrite in place when the key exists,
    otherwise append, preserving insertion order as Python dicts do. -/
def dictInsert (d : List (String × α)) (k : String) (v : α) : List (String × α) :=
  if hasKey d k then d.map (fun p => if p.1 = k then (k, v) else p)
  else d ++ [(k, v)]

/-- One record of the assets array in the /fapi/v2/account response body.
    The two balance fields are read with float(asset.get(field, 0)) in the
    source, so a missing field reads as 0; the asset name is read with
    asset.get(and may be absent). -/
structure AssetRecord where
  asset : Option String
  walletBalance : Option ℚ
  availableBalance : Option ℚ
  deriving DecidableEq

/-- Decoded body of the account endpoint response; the patched method only
    reads data.get(assets, defaulting to the empty list). -/
structure BalanceResponse where
  assets : Option (List AssetRecord)
  deriving DecidableEq

/-- The free/used/total dict stored under result[currency]. -/
structure BalanceTriple where
  free : ℚ
  used : ℚ
  total : ℚ
  deriving DecidableEq

/-- The result dict of patched_fetch_balance minus the info key: the three
    top-level sub-dicts plus the per-currency entries. -/
structure Balances where
  free : List (String × ℚ)
  used : List (String × ℚ)
  total : List (String × ℚ)
  perAsset : List (String × BalanceTriple)
  deriving DecidableEq

/-- Python truthiness of the currency name: None and the empty string are
    falsy, so the loop skips such records (if not currency: continue). -/
def truthyName (a : AssetRecord) : Option String :=
  match a.asset with
  | none => none
  | some c => if c = "" then none else some c

/-- Body of the loop over assets in patched_fetch_balance.  Note the source
    writes result[currency], result[free][currency] and
    result[total][currency], but never result[used][currency]: the used
    sub-dict is left untouched. -/
def balStep (st : Balances) (a : AssetRecord) : Balances :=
  match truthyName a with
  | none => st
  | some currency =>
    let total := a.walletBalance.getD 0
    let free := a.availableBalance.getD 0
    { free := dictInsert st.free currency free
      used := st.used
      total := dictInsert st.total currency total
      perAsset := dictInsert st.perAsset currency ⟨free, total - free, total⟩ }

/-- The full loop of patched_fetch_balance, starting from the empty
    sub-dicts. -/
def processBalance (assets : List AssetRecord) : Balances :=
  assets.foldl balStep ⟨[], [], [], []⟩

/-- The value returned by patched_fetch_balance on a 200 response: the raw
    payload under info plus the assembled balances. -/
structure BalanceResult where
  info : BalanceResponse
  balances : Balances
  deriving DecidableEq

/-- Result assembly of patched_fetch_balance for a successful response. -/
def balanceResult (data : BalanceResponse) : BalanceResult :=
  { info := data, balances := processBalance (data.assets.getD []) }

/-- patched_fetch_balance, given the HTTP response as status plus decoded
    JSON body.  A non-200 status raises, carrying the decoded body. -/
def patched_fetch_balance (status : Nat) (data : BalanceResponse) :
    Except BalanceResponse BalanceResult :=
  if status ≠ 200 then Except.error data else Except.ok (balanceResult data)

/-- One item of the /fapi/v2/positionRisk response list; these five fields
    are read unconditionally by the source (plain indexing). -/
structure PositionItem where
  symbol : String
  positionAmt : ℚ
  unRealizedProfit : ℚ
  leverage : ℚ
  entryPrice : ℚ
  deriving DecidableEq

/-- One record appended to the result list by patched_fetch_positions. -/
structure PositionRecord where
  info : PositionItem
  symbol : String
  contracts : ℚ
  unrealizedPnl : ℚ
  leverage : ℚ
  side : String
  entryPrice : ℚ
  deriving DecidableEq

/-- The record built for one response item: side is long when the signed
    position amount is strictly positive, otherwise short. -/
def mkPositionRecord (item : PositionItem) : PositionRecord :=
  { info := item
    symbol := item.symbol
    contracts := item.positionAmt
    unrealizedPnl := item.unRealizedProfit
    leverage := item.leverage
    side := if 0 < item.positionAmt then "long" else "short"
    entryPrice := item.entryPrice }

/-- The loop of patched_fetch_positions: one record per response item. -/
def processPositions (data : List PositionItem) : List PositionRecord :=
  data.map mkPositionRecord

/-- patched_fetch_positions, given the symbols argument (present in the
    signature, never read in the body) and the HTTP response. -/
def patched_fetch_positions (symbols : Option (List String)) (status : Nat)
    (data : List PositionItem) :
    Except (List PositionItem) (List PositionRecord) :=
  if status ≠ 200 then Except.error data else Except.ok (processPositions data)

/-- patched_fetch_ticker after symbol resolution, given the HTTP response;
    on success the shaping is delegated to the ccxt parse_ticker routine,
    passed here as a function argument together with the resolved market. -/
def patched_fetch_ticker {Raw Market Ticker : Type}
    (parse_ticker : Raw → Market → Ticker) (market : Market)
    (status : Nat) (data : Raw) : Except Raw Ticker :=
  if status ≠ 200 then Except.error data else Except.ok (parse_ticker data market)

/-- patched_create_order response handling, given the HTTP response; on
    success the shaping is delegated to the ccxt parse_order routine,
    passed here as a function argument together with the resolved market. -/
def patched_create_order {Raw Market Order : Type}
    (parse_order : Raw → Market → Order) (market : Market)
    (status : Nat) (data : Raw) : Except Raw Order :=
  if status ≠ 200 then Except.error data else Except.ok (parse_order data market)

/-- Little-endian decimal digits of a natural number, with explicit fuel so
    that the recursion is structural. -/
def natDigitsAux : Nat → Nat → List Nat
  | 0, _ => []
  | fuel + 1, n => if n = 0 then [] else n % 10 :: natDigitsAux fuel (n / 10)

/-- Decimal digits of n, most significant first. -/
def natDecDigits (n : Nat) : List Nat := (natDigitsAux n n).reverse

/-- Python str() on a nonnegative integer, as used by urlencode on the
    timestamp and recvWindow fields. -/
def natStr (n : Nat) : String :=
  if n = 0 then "0" else String.mk ((natDecDigits n).map Nat.digitChar)

/-- Python str() on a numeric amount, abstracted as an exact rendering of
    the rational value (the claims only require that the value is
    stringified, never a particular float digit format). -/
def floatStr (q : ℚ) : String :=
  (if q.num < 0 then "-" else "") ++ natStr q.num.natAbs ++
    (if q.den = 1 then "" else "/" ++ natStr q.den)

/-- Python truthiness of the price argument of patched_create_order: both
    None and a zero amount are falsy. -/
def priceTruthy (price : Option ℚ) : Bool :=
  match price with
  | none => false
  | some p => if p = 0 then false else true

/-- Python str.upper() on the ASCII keywords used for side and type,
    modelled character-wise so that it evaluates structurally. -/
def strUpper (s : String) : String := String.mk (s.data.map Char.toUpper)

/-- The required order_params dict built by patched_create_order before the
    caller extras are merged: symbol, upper-cased side and type, stringified
    quantity, timestamp, recvWindow; price and timeInForce are added only
    when the price is truthy and the upper-cased type is LIMIT, with the
    timeInForce default GTC overridable through the extras. -/
def createOrderBaseParams (marketId side otype : String) (amount : ℚ)
    (price : Option ℚ) (timestamp : Nat) (extras : List (String × String)) :
    List (String × String) :=
  let base : List (String × String) :=
    [("symbol", marketId), ("side", strUpper side), ("type", strUpper otype),
     ("quantity", floatStr amount), ("timestamp", natStr timestamp),
     ("recvWindow", "60000")]
  match price with
  | none => base
  | some p =>
    if p ≠ 0 ∧ strUpper otype = "LIMIT" then
      base ++ [("price", floatStr p),
               ("timeInForce", (lookupKey "timeInForce" extras).getD "GTC")]
    else base

/-- The merge loop of patched_create_order: each caller-supplied pair is
    added only when its key is not already present. -/
def mergeParams (d : List (String × String)) (extras : List (String × String)) :
    List (String × String) :=
  extras.foldl (fun acc kv => if hasKey acc kv.1 then acc else acc ++ [kv]) d

/-- The full signed parameter set of patched_create_order. -/
def createOrderParams (marketId side otype : String) (amount : ℚ)
    (price : Option ℚ) (timestamp : Nat) (extras : List (String × String)) :
    List (String × String) :=
  mergeParams (createOrderBaseParams marketId side otype amount price timestamp extras)
    extras

/-- UTF-8 bytes of one character (Python string encoding to utf-8). -/
def utf8Bytes (c : Char) : List Nat :=
  let n := c.toNat
  if n < 128 then [n]
  else if n < 2048 then [192 + n / 64, 128 + n % 64]
  else if n < 65536 then [224 + n / 4096, 128 + n / 64 % 64, 128 + n % 64]
  else [240 + n / 262144, 128 + n / 4096 % 64, 128 + n / 64 % 64, 128 + n % 64]

/-- UTF-8 bytes of a string. -/
def strBytes (s : String) : List Nat :=
  s.data.foldr (fun c acc => utf8Bytes c ++ acc) []

/-- Uppercase hexadecimal digit, as used by percent-encoding. -/
def hexDigitUpper (n : Nat) : Char :=
  if n < 10 then Char.ofNat (48 + n) else Char.ofNat (55 + n)

/-- Bytes left unencoded by urllib quote_plus: ASCII alphanumerics and the
    marks underscore, dot, dash, tilde. -/
def safeByte (b : Nat) : Bool :=
  decide ((48 ≤ b ∧ b ≤ 57) ∨ (65 ≤ b ∧ b ≤ 90) ∨ (97 ≤ b ∧ b ≤ 122) ∨
    b = 95 ∨ b = 46 ∨ b = 45 ∨ b = 126)

/-- Percent-encoding of one byte under quote_plus: safe bytes unchanged,
    space becomes a plus sign, everything else percent plus two uppercase
    hex digits. -/
def quoteByte (b : Nat) : List Char :=
  if safeByte b then [Char.ofNat b]
  else if b = 32 then ['+']
  else ['%', hexDigitUpper (b / 16), hexDigitUpper (b % 16)]

/-- Percent-encoding of a byte sequence. -/
def quoteChars : List Nat → List Char
  | [] => []
  | b :: rest => quoteByte b ++ quoteChars rest

/-- urllib quote_plus on a string. -/
def quotePlus (s : String) : String := String.mk (quoteChars (strBytes s))

/-- urllib urlencode: key=value pairs joined with ampersands, keys and
    values percent-encoded, in dict insertion order. -/
def urlencode : List (String × String) → String
  | [] => ""
  | [p] => quotePlus p.1 ++ "=" ++ quotePlus p.2
  | p :: rest => quotePlus p.1 ++ "=" ++ quotePlus p.2 ++ "&" ++ urlencode rest

/-- Reduction of a natural number to a 32-bit word. -/
def w32 (n : Nat) : Nat := n % 4294967296

/-- Right rotation of a 32-bit word. -/
def rotr (n x : Nat) : Nat := w32 ((x >>> n) ||| (x <<< (32 - n)))

/-- The SHA-256 choice function; complement is taken by xor against the
    32-bit all-ones mask since naturals are unbounded. -/
def shaCh (x y z : Nat) : Nat := (x &&& y) ^^^ ((x ^^^ 4294967295) &&& z)

/-- The SHA-256 majority function. -/
def shaMaj (x y z : Nat) : Nat := (x &&& y) ^^^ (x &&& z) ^^^ (y &&& z)

/-- Upper-case sigma 0 of FIPS 180-4. -/
def bigSigma0 (x : Nat) : Nat := rotr 2 x ^^^ rotr 13 x ^^^ rotr 22 x

/-- Upper-case sigma 1 of FIPS 180-4. -/
def bigSigma1 (x : Nat) : Nat := rotr 6 x ^^^ rotr 11 x ^^^ rotr 25 x

/-- Lower-case sigma 0 of FIPS 180-4. -/
def smallSigma0 (x : Nat) : Nat := rotr 7 x ^^^ rotr 18 x ^^^ (x >>> 3)

/-- Lower-case sigma 1 of FIPS 180-4. -/
def smallSigma1 (x : Nat) : Nat := rotr 17 x ^^^ rotr 19 x ^^^ (x >>> 10)

/-- The eight working words of the SHA-256 state, h0 through h7 doubling as
    the round variables a through h. -/
@[ext] structure Hash8 where
  h0 : Nat
  h1 : Nat
  h2 : Nat
  h3 : Nat
  h4 : Nat
  h5 : Nat
  h6 : Nat
  h7 : Nat

/-- The SHA-256 round constants. -/
def shaK : List Nat :=
  [1116352408, 1899447441, 3049323471, 3921009573, 961987163,
   1508970993, 2453635748, 2870763221, 3624381080, 310598401,
   607225278, 1426881987, 1925078388, 2162078206, 2614888103,
   3248222580, 3835390401, 4022224774, 264347078, 604807628,
   770255983, 1249150122, 1555081692, 1996064986, 2554220882,
   2821834349, 2952996808, 3210313671, 3336571891, 3584528711,
   113926993, 338241895, 666307205, 773529912, 1294757372,
   1396182291, 1695183700, 1986661051, 2177026350, 2456956037,
   2730485921, 2820302411, 3259730800, 3345764771, 3516065817,
   3600352804, 4094571909, 275423344, 430227734, 506948616,
   659060556, 883997877, 958139571, 1322822218, 1537002063,
   1747873779, 1955562222, 2024104815, 2227730452, 2361852424,
   2428436474, 2756734187, 3204031479, 3329325298]

/-- The SHA-256 initial hash value. -/
def shaH0 : Hash8 :=
  ⟨1779033703, 3144134277, 1013904242, 2773480762, 1359893119, 2600822924, 528734635, 1541459225⟩

/-- Big-endian eight-byte rendering of the message bit length. -/
def lenBytes (n : Nat) : List Nat :=
  [n / 72057594037927936 % 256, n / 281474976710656 % 256,
   n / 1099511627776 % 256, n / 4294967296 % 256,
   n / 16777216 % 256, n / 65536 % 256, n / 256 % 256, n % 256]

/-- SHA-256 padding: a 0x80 byte, zeros up to 56 mod 64, then the bit
    length. -/
def padMsg (msg : List Nat) : List Nat :=
  msg ++ [128] ++ List.replicate ((120 - (msg.length + 1) % 64) % 64) 0 ++
    lenBytes (8 * msg.length)

/-- Split a byte sequence into 64-byte blocks, with fuel for structural
    recursion. -/
def chunks64 : Nat → List Nat → List (List Nat)
  | 0, _ => []
  | _, [] => []
  | fuel + 1, bs => bs.take 64 :: chunks64 fuel (bs.drop 64)

/-- The sixteen initial message-schedule words of one block, big-endian. -/
def initW (block : List Nat) : List Nat :=
  (List.range 16).map (fun i =>
    block.getD (4 * i) 0 * 16777216 + block.getD (4 * i + 1) 0 * 65536 +
      block.getD (4 * i + 2) 0 * 256 + block.getD (4 * i + 3) 0)

/-- Message-schedule extension: each step appends one word derived from the
    words 2, 7, 15 and 16 places back. -/
def extendW : Nat → List Nat → List Nat
  | 0, ws => ws
  | fuel + 1, ws =>
    let n := ws.length
    extendW fuel (ws ++ [w32 (smallSigma1 (ws.getD (n - 2) 0) + ws.getD (n - 7) 0 +
      smallSigma0 (ws.getD (n - 15) 0) + ws.getD (n - 16) 0)])

/-- One SHA-256 round on the working variables, fed one constant and one
    schedule word. -/
def roundStep (s : Hash8) (kw : Nat × Nat) : Hash8 :=
  let t1 := w32 (s.h7 + bigSigma1 s.h4 + shaCh s.h4 s.h5 s.h6 + kw.1 + kw.2)
  let t2 := w32 (bigSigma0 s.h0 + shaMaj s.h0 s.h1 s.h2)
  ⟨w32 (t1 + t2), s.h0, s.h1, s.h2, w32 (s.h3 + t1), s.h4, s.h5, s.h6⟩

/-- SHA-256 compression of one 64-byte block into the running hash. -/
def compress (h : Hash8) (block : List Nat) : Hash8 :=
  let ws := extendW 48 (initW block)
  let s := (shaK.zip ws).foldl roundStep h
  ⟨w32 (h.h0 + s.h0), w32 (h.h1 + s.h1), w32 (h.h2 + s.h2), w32 (h.h3 + s.h3),
   w32 (h.h4 + s.h4), w32 (h.h5 + s.h5), w32 (h.h6 + s.h6), w32 (h.h7 + s.h7)⟩

/-- SHA-256 of a byte sequence. -/
def sha256Hash (msg : List Nat) : Hash8 :=
  (chunks64 (padMsg msg).length (padMsg msg)).foldl compress shaH0

/-- Big-endian four-byte rendering of one hash word. -/
def wordBytes (w : Nat) : List Nat :=
  [w / 16777216 % 256, w / 65536 % 256, w / 256 % 256, w % 256]

/-- The 32-byte SHA-256 digest. -/
def hashBytes (h : Hash8) : List Nat :=
  wordBytes h.h0 ++ wordBytes h.h1 ++ wordBytes h.h2 ++ wordBytes h.h3 ++
    wordBytes h.h4 ++ wordBytes h.h5 ++ wordBytes h.h6 ++ wordBytes h.h7

/-- Lowercase hexadecimal digit, as produced by hexdigest. -/
def hexDigitLower (n : Nat) : Char :=
  if n < 10 then Char.ofNat (48 + n) else Char.ofNat (87 + n)

/-- Eight lowercase hex characters of one hash word. -/
def wordHexChars (w : Nat) : List Char :=
  [hexDigitLower (w / 268435456 % 16), hexDigitLower (w / 16777216 % 16),
   hexDigitLower (w / 1048576 % 16), hexDigitLower (w / 65536 % 16),
   hexDigitLower (w / 4096 % 16), hexDigitLower (w / 256 % 16),
   hexDigitLower (w / 16 % 16), hexDigitLower (w % 16)]

/-- The hexdigest of a hash value: 64 lowercase hex characters. -/
def hashHex (h : Hash8) : String :=
  String.mk (wordHexChars h.h0 ++ wordHexChars h.h1 ++ wordHexChars h.h2 ++
    wordHexChars h.h3 ++ wordHexChars h.h4 ++ wordHexChars h.h5 ++
    wordHexChars h.h6 ++ wordHexChars h.h7)

/-- HMAC-SHA256 over bytes: the key is hashed down when longer than one
    block, zero-padded to 64 bytes, and combined with the inner and outer
    pad constants. -/
def hmacSha256 (key msg : List Nat) : Hash8 :=
  let k0 := if 64 < key.length then hashBytes (sha256Hash key) else key
  let kp := k0 ++ List.replicate (64 - k0.length) 0
  sha256Hash ((kp.map (fun b => b ^^^ 92)) ++
    hashBytes (sha256Hash ((kp.map (fun b => b ^^^ 54)) ++ msg)))

/-- The signature computation shared by the patched methods: HMAC-SHA256 of
    the urlencoded parameters, keyed by the utf-8 bytes of the secret,
    rendered as a lowercase hexdigest. -/
def signQuery (secret : String) (params : List (String × String)) : String :=
  hashHex (hmacSha256 (strBytes secret) (strBytes (urlencode params)))

/-- The two-field payload signed by patched_fetch_balance and
    patched_fetch_positions: timestamp and recvWindow, stringified as
    urlencode does. -/
def readPayload (timestamp : Nat) : List (String × String) :=
  [("timestamp", natStr timestamp), ("recvWindow", "60000")]

/-- The full request URL of patched_fetch_positions: the symbols argument is
    in scope (as in the source) but the URL is built from the payload and
    signature alone. -/
def patched_fetch_positions_url (symbols : Option (List String))
    (secret : String) (timestamp : Nat) : String :=
  "https://testnet.binancefuture.com/fapi/v2/positionRisk?" ++
    urlencode (readPayload timestamp) ++ "&signature=" ++
    signQuery secret (readPayload timestamp)

/-- The full request URL of patched_fetch_balance. -/
def patched_fetch_balance_url (secret : String) (timestamp : Nat) : String :=
  "https://testnet.binancefuture.com/fapi/v2/account?" ++
    urlencode (readPayload timestamp) ++ "&signature=" ++
    signQuery secret (readPayload timestamp)

/-- Value of a little-endian decimal digit list. -/
def fromDigits : List Nat → Nat
  | [] => 0
  | d :: ds => d + 10 * fromDigits ds

/-- Default position item used with List.getD. -/
def dummyItem : PositionItem := ⟨"", 0, 0, 0, 0⟩

/-- Default position record used with List.getD. -/
def dummyPosition : PositionRecord := mkPositionRecord dummyItem

/-- All eight state words fit in 32 bits. -/
def hashBounded (h : Hash8) : Prop :=
  h.h0 < 4294967296 ∧ h.h1 < 4294967296 ∧ h.h2 < 4294967296 ∧
    h.h3 < 4294967296 ∧ h.h4 < 4294967296 ∧ h.h5 < 4294967296 ∧
    h.h6 < 4294967296 ∧ h.h7 < 4294967296

/-- The hash state reduced into a finite type, for counting arguments. -/
def hashWordsFin (h : Hash8) :
    Fin 4294967296 × Fin 4294967296 × Fin 4294967296 × Fin 4294967296 ×
      Fin 4294967296 × Fin 4294967296 × Fin 4294967296 × Fin 4294967296 :=
  (⟨h.h0 % 4294967296, Nat.mod_lt _ (by norm_num)⟩,
   ⟨h.h1 % 4294967296, Nat.mod_lt _ (by norm_num)⟩,
   ⟨h.h2 % 4294967296, Nat.mod_lt _ (by norm_num)⟩,
   ⟨h.h3 % 4294967296, Nat.mod_lt _ (by norm_num)⟩,
   ⟨h.h4 % 4294967296, Nat.mod_lt _ (by norm_num)⟩,
   ⟨h.h5 % 4294967296, Nat.mod_lt _ (by norm_num)⟩,
   ⟨h.h6 % 4294967296, Nat.mod_lt _ (by norm_num)⟩,
   ⟨h.h7 % 4294967296, Nat.mod_lt _ (by norm_num)⟩)

/-- A one-asset account response used as a concrete test input. -/
def exAccount : BalanceResponse := ⟨some [⟨some "USDT", some 100, some 40⟩]⟩

/-- A three-item positionRisk response used as a concrete test input: a long
    position, a short position and a flat one. -/
def exPositions : List PositionItem :=
  [⟨"BTCUSDT", 2.5, 0, 20, 100⟩, ⟨"ETHUSDT", -1, 0, 10, 50⟩,
   ⟨"XRPUSDT", 0, 0, 5, 1⟩]

theorem lookupKey_append (k : String) (d e : List (String × α)) :
    lookupKey k (d ++ e) =
      match lookupKey k d with
      | some v => some v
      | none => lookupKey k e := by
  induction d with
  | nil => simp [lookupKey]
  | cons p rest ih =>
    by_cases h : p.1 = k
    · simp [lookupKey, h]
    · simpa [lookupKey, h] using ih

theorem hasKey_eq_false_iff (k : String) (d : List (String × α)) :
    hasKey d k = false ↔ lookupKey k d = none := by
  cases h : lookupKey k d <;> simp [hasKey, h]

theorem hasKey_eq_true_iff (k : String) (d : List (String × α)) :
    hasKey d k = true ↔ ∃ v, lookupKey k d = some v := by
  cases h : lookupKey k d <;> simp [hasKey, h]

theorem lookupKey_append_left (k : String) (d e : List (String × α))
    (h : hasKey d k = true) : lookupKey k (d ++ e) = lookupKey k d := by
  obtain ⟨v, hv⟩ := (hasKey_eq_true_iff k d).mp h
  rw [lookupKey_append, hv]

theorem lookupKey_append_right (k : String) (d e : List (String × α))
    (h : lookupKey k d = none) : lookupKey k (d ++ e) = lookupKey k e := by
  rw [lookupKey_append, h]

theorem lookupKey_mapInsert_self (k : String) (v : α) (d : List (String × α))
    (h : hasKey d k = true) :
    lookupKey k (d.map (fun p => if p.1 = k then (k, v) else p)) = some v := by
  induction d with
  | nil => simp [hasKey, lookupKey] at h
  | cons p rest ih =>
    by_cases hp : p.1 = k
    · simp [lookupKey, List.map_cons, hp]
    · have hr : hasKey rest k = true := by
        simpa [hasKey, lookupKey, hp] using h
      simpa [lookupKey, List.map_cons, hp] using ih hr

theorem lookupKey_mapInsert_ne (k1 k : String) (v : α) (d : List (String × α))
    (hne : k1 ≠ k) :
    lookupKey k1 (d.map (fun p => if p.1 = k then (k, v) else p)) = lookupKey k1 d := by
  have hk1 : ¬ (k = k1) := fun he => hne he.symm
  induction d with
  | nil => rfl
  | cons p rest ih =>
    by_cases hp : p.1 = k
    · have hp1 : ¬ p.1 = k1 := by rw [hp]; exact hk1
      simp [lookupKey, List.map_cons, hp, hp1, hk1, ih]
    · by_cases hp1 : p.1 = k1
      · simp [lookupKey, List.map_cons, hp, hp1, hne]
      · simp [lookupKey, List.map_cons, hp, hp1, ih]

theorem lookupKey_dictInsert_self (k : String) (v : α) (d : List (String × α)) :
    lookupKey k (dictInsert d k v) = some v := by
  unfold dictInsert
  by_cases h : hasKey d k = true
  · rw [if_pos h]
    exact lookupKey_mapInsert_self k v d h
  · rw [if_neg (by simpa using h)]
    rw [lookupKey_append_right k d _
      ((hasKey_eq_false_iff k d).mp (by simpa using h))]
    simp [lookupKey]

theorem lookupKey_dictInsert_ne (k1 k : String) (v : α) (d : List (String × α))
    (hne : k1 ≠ k) : lookupKey k1 (dictInsert d k v) = lookupKey k1 d := by
  unfold dictInsert
  by_cases h : hasKey d k = true
  · rw [if_pos h]
    exact lookupKey_mapInsert_ne k1 k v d hne
  · rw [if_neg (by simpa using h)]
    rw [lookupKey_append]
    have hk1 : ¬ (k = k1) := fun he => hne he.symm
    cases hd : lookupKey k1 d with
    | some w => rfl
    | none => simp [lookupKey, hk1]

theorem mem_dictInsert (p : String × α) (d : List (String × α)) (k : String) (v : α)
    (hp : p ∈ dictInsert d k v) : p.1 = k ∨ p ∈ d := by
  unfold dictInsert at hp
  by_cases h : hasKey d k = true
  · rw [if_pos h] at hp
    simp only [List.mem_map] at hp
    obtain ⟨q, hq, he⟩ := hp
    by_cases hqk : q.1 = k
    · left; rw [← he]; simp [hqk]
    · right; rw [← he]; simpa [hqk] using hq
  · rw [if_neg (by simpa using h)] at hp
    simp only [List.mem_append, List.mem_singleton] at hp
    rcases hp with hp | hp
    · right; exact hp
    · left; rw [hp]

theorem balStep_used (st : Balances) (a : AssetRecord) :
    (balStep st a).used = st.used := by
  cases h : truthyName a <;> simp [balStep, h]

theorem foldl_balStep_used (assets : List AssetRecord) (st : Balances) :
    (List.foldl balStep st assets).used = st.used := by
  induction assets generalizing st with
  | nil => rfl
  | cons a rest ih => rw [List.foldl_cons, ih, balStep_used]

theorem truthyName_ne_empty (a : AssetRecord) (c : String)
    (h : truthyName a = some c) : c ≠ "" := by
  cases ha : a.asset with
  | none => simp [truthyName, ha] at h
  | some c2 =>
    by_cases hc2 : c2 = ""
    · simp [truthyName, ha, hc2] at h
    · simp only [truthyName, ha, if_neg hc2, Option.some_inj] at h
      rw [← h]; exact hc2

theorem foldl_balStep_not_mem (assets : List AssetRecord) (st : Balances)
    (c : String) (hc : c ∉ assets.filterMap truthyName) :
    lookupKey c (List.foldl balStep st assets).perAsset = lookupKey c st.perAsset ∧
    lookupKey c (List.foldl balStep st assets).free = lookupKey c st.free ∧
    lookupKey c (List.foldl balStep st assets).total = lookupKey c st.total := by
  induction assets generalizing st with
  | nil => exact ⟨rfl, rfl, rfl⟩
  | cons a rest ih =>
    rw [List.foldl_cons]
    cases h : truthyName a with
    | none =>
      have hrest : c ∉ rest.filterMap truthyName := by
        simpa [List.filterMap_cons, h] using hc
      have hstep : balStep st a = st := by simp [balStep, h]
      rw [hstep]
      exact ih st hrest
    | some c2 =>
      have hcc : c ≠ c2 ∧ c ∉ rest.filterMap truthyName := by
        have := hc
        simp only [List.filterMap_cons, h, List.mem_cons] at this
        exact ⟨fun he => this (Or.inl he), fun hm => this (Or.inr hm)⟩
      obtain ⟨hne, hrest⟩ := hcc
      obtain ⟨i1, i2, i3⟩ := ih (balStep st a) hrest
      refine ⟨?_, ?_, ?_⟩
      · rw [i1]; simp only [balStep, h]
        exact lookupKey_dictInsert_ne c c2 _ _ hne
      · rw [i2]; simp only [balStep, h]
        exact lookupKey_dictInsert_ne c c2 _ _ hne
      · rw [i3]; simp only [balStep, h]
        exact lookupKey_dictInsert_ne c c2 _ _ hne

theorem lookup_foldl_balStep (assets : List AssetRecord) (st : Balances)
    (r : AssetRecord) (c : String) (hr : r ∈ assets) (hc : truthyName r = some c)
    (hnd : (assets.filterMap truthyName).Nodup) :
    lookupKey c (List.foldl balStep st assets).perAsset =
      some ⟨r.availableBalance.getD 0,
        r.walletBalance.getD 0 - r.availableBalance.getD 0,
        r.walletBalance.getD 0⟩ ∧
    lookupKey c (List.foldl balStep st assets).free =
      some (r.availableBalance.getD 0) ∧
    lookupKey c (List.foldl balStep st assets).total =
      some (r.walletBalance.getD 0) := by
  induction assets generalizing st with
  | nil => cases hr
  | cons a rest ih =>
    rw [List.foldl_cons]
    rcases List.mem_cons.mp hr with he | hm
    · subst he
      have hcrest : c ∉ rest.filterMap truthyName := by
        simp only [List.filterMap_cons, hc] at hnd
        exact (List.nodup_cons.mp hnd).1
      obtain ⟨p1, p2, p3⟩ := foldl_balStep_not_mem rest (balStep st r) c hcrest
      refine ⟨?_, ?_, ?_⟩
      · rw [p1]; simp only [balStep, hc]
        exact lookupKey_dictInsert_self c _ _
      · rw [p2]; simp only [balStep, hc]
        exact lookupKey_dictInsert_self c _ _
      · rw [p3]; simp only [balStep, hc]
        exact lookupKey_dictInsert_self c _ _
    · have hnd2 : (rest.filterMap truthyName).Nodup := by
        cases h2 : truthyName a with
        | none => simpa [List.filterMap_cons, h2] using hnd
        | some c2 =>
          simp only [List.filterMap_cons, h2] at hnd
          exact (List.nodup_cons.mp hnd).2
      exact ih (balStep st a) hm hnd2

theorem balStep_falsy (st : Balances) (a : AssetRecord)
    (h : truthyName a = none) : balStep st a = st := by
  simp [balStep, h]

theorem foldl_balStep_filter (assets : List AssetRecord) (st : Balances) :
    List.foldl balStep st assets =
      List.foldl balStep st (assets.filter (fun a => (truthyName a).isSome)) := by
  induction assets generalizing st with
  | nil => rfl
  | cons a rest ih =>
    rw [List.foldl_cons]
    cases h : truthyName a with
    | none =>
      rw [balStep_falsy st a h, ih st]
      have hf : (a :: rest).filter (fun a => (truthyName a).isSome) =
          rest.filter (fun a => (truthyName a).isSome) := by
        simp [List.filter_cons, h]
      rw [hf]
    | some c =>
      rw [ih (balStep st a)]
      have hf : (a :: rest).filter (fun a => (truthyName a).isSome) =
          a :: rest.filter (fun a => (truthyName a).isSome) := by
        simp [List.filter_cons, h]
      rw [hf, List.foldl_cons]

theorem foldl_balStep_keys (assets : List AssetRecord) (st : Balances)
    (h1 : ∀ p ∈ st.perAsset, p.1 ≠ "") (h2 : ∀ p ∈ st.free, p.1 ≠ "")
    (h3 : ∀ p ∈ st.total, p.1 ≠ "") :
    (∀ p ∈ (List.foldl balStep st assets).perAsset, p.1 ≠ "") ∧
    (∀ p ∈ (List.foldl balStep st assets).free, p.1 ≠ "") ∧
    (∀ p ∈ (List.foldl balStep st assets).total, p.1 ≠ "") := by
  induction assets generalizing st with
  | nil => exact ⟨h1, h2, h3⟩
  | cons a rest ih =>
    rw [List.foldl_cons]
    cases h : truthyName a with
    | none => rw [balStep_falsy st a h]; exact ih st h1 h2 h3
    | some c =>
      have hc : c ≠ "" := truthyName_ne_empty a c h
      refine ih (balStep st a) ?_ ?_ ?_
      · intro p hp
        simp only [balStep, h] at hp
        rcases mem_dictInsert p _ c _ hp with he | hm
        · rw [he]; exact hc
        · exact h1 p hm
      · intro p hp
        simp only [balStep, h] at hp
        rcases mem_dictInsert p _ c _ hp with he | hm
        · rw [he]; exact hc
        · exact h2 p hm
      · intro p hp
        simp only [balStep, h] at hp
        rcases mem_dictInsert p _ c _ hp with he | hm
        · rw [he]; exact hc
        · exact h3 p hm

theorem hasKey_append_left (k : String) (d e : List (String × α))
    (h : hasKey d k = true) : hasKey (d ++ e) k = true := by
  rw [hasKey, lookupKey_append_left k d e h]; exact h

theorem lookupKey_foldl_merge_covered (extras : List (String × String)) :
    ∀ (d : List (String × String)) (k : String), hasKey d k = true →
    lookupKey k (List.foldl
      (fun acc kv => if hasKey acc kv.1 then acc else acc ++ [kv]) d extras) =
      lookupKey k d := by
  induction extras with
  | nil => intro d k _; rfl
  | cons kv rest ih =>
    intro d k h
    rw [List.foldl_cons]
    by_cases h1 : hasKey d kv.1 = true
    · rw [if_pos h1]; exact ih d k h
    · rw [if_neg (by simpa using h1)]
      rw [ih (d ++ [kv]) k (hasKey_append_left k d [kv] h)]
      exact lookupKey_append_left k d [kv] h

theorem lookupKey_foldl_merge_new (extras : List (String × String)) :
    ∀ (d : List (String × String)) (k : String), hasKey d k = false →
    lookupKey k (List.foldl
      (fun acc kv => if hasKey acc kv.1 then acc else acc ++ [kv]) d extras) =
      lookupKey k extras := by
  induction extras with
  | nil =>
    intro d k h
    rw [List.foldl_nil, (hasKey_eq_false_iff k d).mp h]; rfl
  | cons kv rest ih =>
    intro d k h
    rw [List.foldl_cons]
    by_cases h1 : hasKey d kv.1 = true
    · rw [if_pos h1]
      have hkvk : ¬ kv.1 = k := by
        intro he; rw [he] at h1; rw [h1] at h; cases h
      rw [ih d k h]
      simp [lookupKey, hkvk]
    · rw [if_neg (by simpa using h1)]
      by_cases hkvk : kv.1 = k
      · have h2 : hasKey (d ++ [kv]) k = true := by
          rw [hasKey, lookupKey_append_right k d [kv]
            ((hasKey_eq_false_iff k d).mp h)]
          simp [lookupKey, hkvk]
        rw [lookupKey_foldl_merge_covered rest (d ++ [kv]) k h2]
        rw [lookupKey_append_right k d [kv] ((hasKey_eq_false_iff k d).mp h)]
        simp [lookupKey, hkvk]
      · have h2 : hasKey (d ++ [kv]) k = false := by
          rw [hasKey, lookupKey_append_right k d [kv]
            ((hasKey_eq_false_iff k d).mp h)]
          simp [lookupKey, hkvk]
        rw [ih (d ++ [kv]) k h2]
        simp [lookupKey, hkvk]

theorem lookupKey_mergeParams_covered (d extras : List (String × String))
    (k : String) (h : hasKey d k = true) :
    lookupKey k (mergeParams d extras) = lookupKey k d :=
  lookupKey_foldl_merge_covered extras d k h

theorem lookupKey_mergeParams_new (d extras : List (String × String))
    (k : String) (h : hasKey d k = false) :
    lookupKey k (mergeParams d extras) = lookupKey k extras :=
  lookupKey_foldl_merge_new extras d k h

theorem natDigitsAux_lt (fuel : Nat) : ∀ n, ∀ d ∈ natDigitsAux fuel n, d < 10 := by
  induction fuel with
  | zero => intro n d hd; simp [natDigitsAux] at hd
  | succ fuel ih =>
    intro n d hd
    by_cases hn : n = 0
    · simp [natDigitsAux, hn] at hd
    · rw [natDigitsAux, if_neg hn] at hd
      rcases List.mem_cons.mp hd with he | hm
      · rw [he]; exact Nat.mod_lt n (by norm_num)
      · exact ih (n / 10) d hm

theorem natDecDigits_lt (k : Nat) : ∀ d ∈ natDecDigits k, d < 10 := by
  intro d hd
  exact natDigitsAux_lt k k d (List.mem_reverse.mp hd)

theorem fromDigits_natDigitsAux (fuel : Nat) :
    ∀ n, n ≤ fuel → fromDigits (natDigitsAux fuel n) = n := by
  induction fuel with
  | zero =>
    intro n hn
    have h0 : n = 0 := Nat.le_zero.mp hn
    subst h0; rfl
  | succ fuel ih =>
    intro n hn
    by_cases h : n = 0
    · subst h; simp [natDigitsAux, fromDigits]
    · have hdiv : n / 10 ≤ fuel := by
        have h1 : n / 10 < n := Nat.div_lt_self (Nat.pos_of_ne_zero h) (by norm_num)
        omega
      rw [natDigitsAux, if_neg h, fromDigits, ih (n / 10) hdiv]
      exact Nat.mod_add_div n 10

theorem digitChar_inj_lt (a b : Nat) (ha : a < 10) (hb : b < 10)
    (h : Nat.digitChar a = Nat.digitChar b) : a = b := by
  have hd : ∀ x : Fin 10, ∀ y : Fin 10,
      Nat.digitChar x.val = Nat.digitChar y.val → x = y := by decide
  exact congrArg Fin.val (hd ⟨a, ha⟩ ⟨b, hb⟩ h)

theorem map_digitChar_inj (xs : List Nat) :
    ∀ ys, (∀ d ∈ xs, d < 10) → (∀ d ∈ ys, d < 10) →
    xs.map Nat.digitChar = ys.map Nat.digitChar → xs = ys := by
  induction xs with
  | nil =>
    intro ys _ _ h
    cases ys with
    | nil => rfl
    | cons y ys => simp at h
  | cons x xs ih =>
    intro ys hx hy h
    cases ys with
    | nil => simp at h
    | cons y ys =>
      simp only [List.map_cons, List.cons.injEq] at h
      have hxy : x = y :=
        digitChar_inj_lt x y (hx x (by simp)) (hy y (by simp)) h.1
      rw [hxy,
        ih ys (fun d hd => hx d (by simp [hd])) (fun d hd => hy d (by simp [hd])) h.2]

theorem natStr_inj (n m : Nat) (h : natStr n = natStr m) : n = m := by
  have key : ∀ a : Nat, a ≠ 0 → natStr a = "0" → False := by
    intro a ha hstr
    rw [natStr, if_neg ha] at hstr
    have hdata : (natDecDigits a).map Nat.digitChar = [Nat.digitChar 0] :=
      congrArg String.data hstr
    have hds : natDecDigits a = [0] :=
      map_digitChar_inj _ [0] (natDecDigits_lt a) (by norm_num) hdata
    have haux : natDigitsAux a a = [0] := by
      have hrev := congrArg List.reverse hds
      simpa [natDecDigits] using hrev
    have h0 := fromDigits_natDigitsAux a a le_rfl
    rw [haux] at h0
    simp [fromDigits] at h0
    exact ha h0.symm
  by_cases hn : n = 0 <;> by_cases hm : m = 0
  · rw [hn, hm]
  · exact absurd (by rw [← h, natStr, if_pos hn] : natStr m = "0")
      (fun he => key m hm he)
  · exact absurd (by rw [h, natStr, if_pos hm] : natStr n = "0")
      (fun he => key n hn he)
  · rw [natStr, if_neg hn, natStr, if_neg hm] at h
    have hdata : (natDecDigits n).map Nat.digitChar =
        (natDecDigits m).map Nat.digitChar := congrArg String.data h
    have hds : natDecDigits n = natDecDigits m :=
      map_digitChar_inj _ _ (natDecDigits_lt n) (natDecDigits_lt m) hdata
    have haux : natDigitsAux n n = natDigitsAux m m := by
      have hrev := congrArg List.reverse hds
      simpa [natDecDigits] using hrev
    have h1 := fromDigits_natDigitsAux n n le_rfl
    have h2 := fromDigits_natDigitsAux m m le_rfl
    rw [haux] at h1
    exact h1.symm.trans h2

theorem quote_digitChar (d : Nat) (hd : d < 10) :
    utf8Bytes (Nat.digitChar d) = [(Nat.digitChar d).toNat] ∧
    quoteByte ((Nat.digitChar d).toNat) = [Nat.digitChar d] := by
  have hall : ∀ x : Fin 10,
      utf8Bytes (Nat.digitChar x.val) = [(Nat.digitChar x.val).toNat] ∧
      quoteByte ((Nat.digitChar x.val).toNat) = [Nat.digitChar x.val] := by decide
  exact hall ⟨d, hd⟩

theorem quoteChars_digits (ds : List Nat) (hds : ∀ d ∈ ds, d < 10) :
    quoteChars (strBytes (String.mk (ds.map Nat.digitChar))) =
      ds.map Nat.digitChar := by
  induction ds with
  | nil => rfl
  | cons d rest ih =>
    have hd : d < 10 := hds d (by simp)
    obtain ⟨h1, h2⟩ := quote_digitChar d hd
    simp only [List.map_cons]
    rw [show strBytes (String.mk (Nat.digitChar d :: List.map Nat.digitChar rest)) =
        utf8Bytes (Nat.digitChar d) ++
          strBytes (String.mk (List.map Nat.digitChar rest)) from rfl]
    rw [h1, List.singleton_append, quoteChars, h2,
      ih (fun x hx => hds x (List.mem_cons_of_mem d hx)), List.singleton_append]

theorem quotePlus_natStr (n : Nat) : quotePlus (natStr n) = natStr n := by
  by_cases hn : n = 0
  · subst hn; decide
  · rw [natStr, if_neg hn]
    show String.mk (quoteChars (strBytes (String.mk _))) = _
    rw [quoteChars_digits _ (natDecDigits_lt n)]

theorem compress_bounded (h : Hash8) (b : List Nat) :
    hashBounded (compress h b) := by
  simp only [hashBounded, compress, w32]
  refine ⟨?_, ?_, ?_, ?_, ?_, ?_, ?_, ?_⟩ <;> exact Nat.mod_lt _ (by norm_num)

theorem foldl_compress_bounded (bs : List (List Nat)) (h : Hash8)
    (hb : hashBounded h) : hashBounded (List.foldl compress h bs) := by
  induction bs generalizing h with
  | nil => exact hb
  | cons b rest ih => rw [List.foldl_cons]; exact ih (compress h b) (compress_bounded h b)

theorem sha256Hash_bounded (msg : List Nat) : hashBounded (sha256Hash msg) := by
  unfold sha256Hash
  exact foldl_compress_bounded _ shaH0 (by simp only [hashBounded, shaH0]; norm_num)

theorem hmacSha256_bounded (key msg : List Nat) :
    hashBounded (hmacSha256 key msg) := by
  unfold hmacSha256
  exact sha256Hash_bounded _

theorem hash8_eq_of_fin (h1 h2 : Hash8) (hb1 : hashBounded h1)
    (hb2 : hashBounded h2) (he : hashWordsFin h1 = hashWordsFin h2) :
    h1 = h2 := by
  obtain ⟨b1, b2, b3, b4, b5, b6, b7, b8⟩ := hb1
  obtain ⟨c1, c2, c3, c4, c5, c6, c7, c8⟩ := hb2
  unfold hashWordsFin at he
  simp only [Prod.mk.injEq, Fin.mk.injEq] at he
  obtain ⟨e1, e2, e3, e4, e5, e6, e7, e8⟩ := he
  rw [Nat.mod_eq_of_lt b1, Nat.mod_eq_of_lt c1] at e1
  rw [Nat.mod_eq_of_lt b2, Nat.mod_eq_of_lt c2] at e2
  rw [Nat.mod_eq_of_lt b3, Nat.mod_eq_of_lt c3] at e3
  rw [Nat.mod_eq_of_lt b4, Nat.mod_eq_of_lt c4] at e4
  rw [Nat.mod_eq_of_lt b5, Nat.mod_eq_of_lt c5] at e5
  rw [Nat.mod_eq_of_lt b6, Nat.mod_eq_of_lt c6] at e6
  rw [Nat.mod_eq_of_lt b7, Nat.mod_eq_of_lt c7] at e7
  rw [Nat.mod_eq_of_lt b8, Nat.mod_eq_of_lt c8] at e8
  ext <;> assumption

/-- Claim C1: the claim states that a successful fetch_balance result
    carries free, used and total sub-mappings each keyed by every asset of
    the response.  The source populates only the free and total sub-dicts:
    the used sub-dict is initialized empty and never written, so it is empty
    for every response, while the other parts of the claim hold.  At the
    concrete one-asset response exAccount, free and total carry the USDT
    entry, the per-asset entry and the info passthrough are present, but the
    used sub-dict has no USDT entry. -/
theorem c1_used_submap_never_populated :
    (∀ data : BalanceResponse, (balanceResult data).balances.used = []) ∧
    (balanceResult exAccount).info = exAccount ∧
    lookupKey "USDT" (balanceResult exAccount).balances.free = some 40 ∧
    lookupKey "USDT" (balanceResult exAccount).balances.total = some 100 ∧
    lookupKey "USDT" (balanceResult exAccount).balances.perAsset =
      some ⟨40, 60, 100⟩ ∧
    lookupKey "USDT" (balanceResult exAccount).balances.used = none := by
  refine ⟨?_,
    rfl,
    by norm_num [balanceResult, exAccount, processBalance, balStep, truthyName,
      dictInsert, hasKey, lookupKey],
    by norm_num [balanceResult, exAccount, processBalance, balStep, truthyName,
      dictInsert, hasKey, lookupKey],
    by norm_num [balanceResult, exAccount, processBalance, balStep, truthyName,
      dictInsert, hasKey, lookupKey],
    by norm_num [balanceResult, exAccount, processBalance, balStep, truthyName,
      dictInsert, hasKey, lookupKey]⟩
  intro data
  exact foldl_balStep_used _ _

/-- Claim C2: for every asset record of a successful fetch_balance response
    (with a truthy asset name, under distinct names), the per-asset entry is
    free = availableBalance, used = walletBalance minus availableBalance,
    total = walletBalance; the subtraction is unguarded, so used is negative
    whenever availableBalance exceeds walletBalance. -/
theorem c2_balance_derivation (assets : List AssetRecord) (r : AssetRecord)
    (c : String) (hr : r ∈ assets) (hc : truthyName r = some c)
    (hnd : (assets.filterMap truthyName).Nodup) :
    lookupKey c (processBalance assets).perAsset =
      some ⟨r.availableBalance.getD 0,
        r.walletBalance.getD 0 - r.availableBalance.getD 0,
        r.walletBalance.getD 0⟩ ∧
    (∀ t : BalanceTriple,
      lookupKey c (processBalance assets).perAsset = some t →
      r.walletBalance.getD 0 < r.availableBalance.getD 0 → t.used < 0) := by
  have h := lookup_foldl_balStep assets ⟨[], [], [], []⟩ r c hr hc hnd
  have h1 : lookupKey c (processBalance assets).perAsset =
      some ⟨r.availableBalance.getD 0,
        r.walletBalance.getD 0 - r.availableBalance.getD 0,
        r.walletBalance.getD 0⟩ := h.1
  refine ⟨h1, ?_⟩
  intro t ht hlt
  rw [h1] at ht
  rw [← Option.some_inj.mp ht]
  exact sub_neg.mpr hlt

/-- Claim C2 witness: walletBalance 100 and availableBalance 40 for USDT
    produce free 40, used 60, total 100. -/
theorem c2_balance_derivation_witness :
    lookupKey "USDT"
      (processBalance [⟨some "USDT", some 100, some 40⟩]).perAsset =
      some ⟨40, 60, 100⟩ := by
  have h := (c2_balance_derivation [⟨some "USDT", some 100, some 40⟩]
    ⟨some "USDT", some 100, some 40⟩ "USDT" (by simp) (by decide) (by decide)).1
  rw [h]
  norm_num

/-- Claim C9: asset records with a missing or empty asset name contribute
    nothing: processing a response equals processing the response with those
    records filtered out, and no produced entry is keyed by the empty
    string. -/
theorem c9_skip_falsy_assets (assets : List AssetRecord) :
    processBalance assets =
      processBalance (assets.filter (fun a => (truthyName a).isSome)) ∧
    (∀ p ∈ (processBalance assets).perAsset, p.1 ≠ "") ∧
    (∀ p ∈ (processBalance assets).free, p.1 ≠ "") ∧
    (∀ p ∈ (processBalance assets).total, p.1 ≠ "") := by
  refine ⟨foldl_balStep_filter assets _, ?_⟩
  exact foldl_balStep_keys assets ⟨[], [], [], []⟩ (by simp) (by simp) (by simp)

/-- Claim C9 witness: a response with a nameless record, an empty-named
    record and a USDT record processes the same as the USDT record alone,
    and the USDT entry is still produced. -/
theorem c9_skip_falsy_assets_witness :
    processBalance [⟨none, some 7, some 3⟩, ⟨some "", some 8, some 4⟩,
        ⟨some "USDT", some 100, some 40⟩] =
      processBalance ([⟨none, some 7, some 3⟩, ⟨some "", some 8, some 4⟩,
        ⟨some "USDT", some 100, some 40⟩].filter
          (fun a => (truthyName a).isSome)) ∧
    ("USDT", (40 : ℚ)).1 ≠ "" := by
  refine ⟨(c9_skip_falsy_assets _).1, ?_⟩
  exact (c9_skip_falsy_assets [⟨none, some 7, some 3⟩, ⟨some "", some 8, some 4⟩,
    ⟨some "USDT", some 100, some 40⟩]).2.2.1 ("USDT", (40 : ℚ)) (by decide)

/-- Claim C3: fetch_positions produces exactly one record per response item,
    zero-quantity items included, and the side of the i-th record is long
    precisely when its positionAmt is strictly positive, short otherwise
    (zero classified as short). -/
theorem c3_positions_side (data : List PositionItem) :
    (processPositions data).length = data.length ∧
    ∀ i, i < data.length →
      (((processPositions data).getD i dummyPosition).side = "long" ↔
        0 < (data.getD i dummyItem).positionAmt) ∧
      (¬ 0 < (data.getD i dummyItem).positionAmt →
        ((processPositions data).getD i dummyPosition).side = "short") := by
  constructor
  · simp [processPositions]
  · intro i hi
    have hlen : i < (processPositions data).length := by
      simpa [processPositions] using hi
    have hget1 : (processPositions data).getD i dummyPosition =
        mkPositionRecord (data.get ⟨i, hi⟩) := by
      rw [List.getD_eq_getElem _ _ hlen]
      simp [processPositions, List.getElem_map]
    have hget2 : data.getD i dummyItem = data.get ⟨i, hi⟩ := by
      rw [List.getD_eq_getElem _ _ hi]
      simp
    rw [hget1, hget2]
    constructor
    · by_cases hp : 0 < (data.get ⟨i, hi⟩).positionAmt
      · simp [mkPositionRecord, hp]
      · simp [mkPositionRecord, hp]
    · intro hp
      show (if 0 < (data.get ⟨i, hi⟩).positionAmt then "long" else "short") =
        "short"
      exact if_neg hp

/-- Claim C3 witness: positionAmt 2.5 gives side long, positionAmt -1 gives
    short, positionAmt 0 gives short, and three items give three records. -/
theorem c3_positions_side_witness :
    (processPositions exPositions).length = 3 ∧
    ((processPositions exPositions).getD 0 dummyPosition).side = "long" ∧
    ((processPositions exPositions).getD 1 dummyPosition).side = "short" ∧
    ((processPositions exPositions).getD 2 dummyPosition).side = "short" := by
  obtain ⟨hlen, hall⟩ := c3_positions_side exPositions
  refine ⟨by rw [hlen]; rfl, ?_, ?_, ?_⟩
  · exact (hall 0 (by norm_num [exPositions])).1.mpr
      (by norm_num [exPositions, List.getD_cons_zero, List.getD_cons_succ])
  · exact (hall 1 (by norm_num [exPositions])).2
      (by norm_num [exPositions, List.getD_cons_zero, List.getD_cons_succ])
  · exact (hall 2 (by norm_num [exPositions])).2
      (by norm_num [exPositions, List.getD_cons_zero, List.getD_cons_succ])

/-- Claim C4: merging caller extras into the required order parameters is
    first-write-wins: a key already present keeps its required value, and a
    key not present takes its value from the extras. -/
theorem c4_param_precedence (marketId side otype : String) (amount : ℚ)
    (price : Option ℚ) (timestamp : Nat) (extras : List (String × String))
    (k : String) :
    (hasKey (createOrderBaseParams marketId side otype amount price timestamp
        extras) k = true →
      lookupKey k (createOrderParams marketId side otype amount price timestamp
          extras) =
        lookupKey k (createOrderBaseParams marketId side otype amount price
          timestamp extras)) ∧
    (hasKey (createOrderBaseParams marketId side otype amount price timestamp
        extras) k = false →
      lookupKey k (createOrderParams marketId side otype amount price timestamp
          extras) =
        lookupKey k extras) := by
  constructor
  · intro h; exact lookupKey_mergeParams_covered _ extras k h
  · intro h; exact lookupKey_mergeParams_new _ extras k h

/-- Claim C4 witness: a caller-supplied timestamp does not override the
    required one, while a fresh key (reduceOnly) is merged in. -/
theorem c4_param_precedence_witness :
    hasKey (createOrderBaseParams "BTCUSDT" "buy" "market" 1 none 1000
      [("timestamp", "9999"), ("reduceOnly", "true")]) "timestamp" = true ∧
    lookupKey "timestamp" (createOrderParams "BTCUSDT" "buy" "market" 1 none
      1000 [("timestamp", "9999"), ("reduceOnly", "true")]) = some "1000" ∧
    lookupKey "reduceOnly" (createOrderParams "BTCUSDT" "buy" "market" 1 none
      1000 [("timestamp", "9999"), ("reduceOnly", "true")]) = some "true" := by
  have h1 := (c4_param_precedence "BTCUSDT" "buy" "market" 1 none 1000
    [("timestamp", "9999"), ("reduceOnly", "true")] "timestamp").1 (by decide)
  have h2 := (c4_param_precedence "BTCUSDT" "buy" "market" 1 none 1000
    [("timestamp", "9999"), ("reduceOnly", "true")] "reduceOnly").2 (by decide)
  refine ⟨by decide, ?_, ?_⟩
  · rw [h1]; decide
  · rw [h2]; decide

/-- Claim C5: each of the four patched operations raises an API error
    carrying the decoded response body whenever the status is not 200, and
    returns normally on a 200 response. -/
theorem c5_api_error {RawT MarketT TickerT RawO MarketO OrderT : Type}
    (parse_ticker : RawT → MarketT → TickerT) (market_t : MarketT)
    (parse_order : RawO → MarketO → OrderT) (market_o : MarketO) :
    (∀ (status : Nat) (data : BalanceResponse), status ≠ 200 →
      patched_fetch_balance status data = Except.error data) ∧
    (∀ data : BalanceResponse,
      patched_fetch_balance 200 data = Except.ok (balanceResult data)) ∧
    (∀ (status : Nat) (data : RawT), status ≠ 200 →
      patched_fetch_ticker parse_ticker market_t status data =
        Except.error data) ∧
    (∀ data : RawT, ∃ v,
      patched_fetch_ticker parse_ticker market_t 200 data = Except.ok v) ∧
    (∀ (symbols : Option (List String)) (status : Nat)
        (data : List PositionItem), status ≠ 200 →
      patched_fetch_positions symbols status data = Except.error data) ∧
    (∀ (symbols : Option (List String)) (data : List PositionItem), ∃ v,
      patched_fetch_positions symbols 200 data = Except.ok v) ∧
    (∀ (status : Nat) (data : RawO), status ≠ 200 →
      patched_create_order parse_order market_o status data =
        Except.error data) ∧
    (∀ data : RawO, ∃ v,
      patched_create_order parse_order market_o 200 data = Except.ok v) := by
  refine ⟨?_, ?_, ?_, ?_, ?_, ?_, ?_, ?_⟩
  · intro s d h; simp [patched_fetch_balance, h]
  · intro d; simp [patched_fetch_balance]
  · intro s d h; simp [patched_fetch_ticker, h]
  · intro d; exact ⟨parse_ticker d market_t, by simp [patched_fetch_ticker]⟩
  · intro sy s d h; simp [patched_fetch_positions, h]
  · intro sy d
    exact ⟨processPositions d, by simp [patched_fetch_positions]⟩
  · intro s d h; simp [patched_create_order, h]
  · intro d; exact ⟨parse_order d market_o, by simp [patched_create_order]⟩

/-- Claim C5 witness: a simulated 404 yields the error carrying the body
    for each operation, and a 200 returns normally for each operation. -/
theorem c5_api_error_witness :
    patched_fetch_balance 404 ⟨none⟩ = Except.error ⟨none⟩ ∧
    patched_fetch_balance 200 ⟨none⟩ = Except.ok (balanceResult ⟨none⟩) ∧
    patched_fetch_ticker (fun (r : Unit) (m : Unit) => r) () 404 () =
      Except.error () ∧
    (∃ v, patched_fetch_ticker (fun (r : Unit) (m : Unit) => r) () 200 () =
      Except.ok v) ∧
    patched_fetch_positions none 404 [] = Except.error [] ∧
    (∃ v, patched_fetch_positions none 200 [] = Except.ok v) ∧
    patched_create_order (fun (r : Unit) (m : Unit) => r) () 404 () =
      Except.error () ∧
    (∃ v, patched_create_order (fun (r : Unit) (m : Unit) => r) () 200 () =
      Except.ok v) := by
  have h := c5_api_error (fun (r : Unit) (m : Unit) => r) ()
    (fun (r : Unit) (m : Unit) => r) ()
  exact ⟨h.1 404 ⟨none⟩ (by decide), h.2.1 ⟨none⟩, h.2.2.1 404 () (by decide),
    h.2.2.2.1 (), h.2.2.2.2.1 none 404 [] (by decide), h.2.2.2.2.2.1 none [],
    h.2.2.2.2.2.2.1 404 () (by decide), h.2.2.2.2.2.2.2 ()⟩

/-- Claim C6: the symbols argument of fetch_positions never influences the
    signed request URL or the produced result: any two values of the
    argument give identical behaviour on the same response. -/
theorem c6_symbols_unused (s1 s2 : Option (List String)) (secret : String)
    (timestamp status : Nat) (data : List PositionItem) :
    patched_fetch_positions_url s1 secret timestamp =
      patched_fetch_positions_url s2 secret timestamp ∧
    patched_fetch_positions s1 status data =
      patched_fetch_positions s2 status data :=
  ⟨rfl, rfl⟩

theorem orderBase_core (marketId side otype : String) (amount : ℚ)
    (price : Option ℚ) (timestamp : Nat) (extras : List (String × String)) :
    lookupKey "symbol" (createOrderBaseParams marketId side otype amount price
      timestamp extras) = some marketId ∧
    lookupKey "side" (createOrderBaseParams marketId side otype amount price
      timestamp extras) = some (strUpper side) ∧
    lookupKey "type" (createOrderBaseParams marketId side otype amount price
      timestamp extras) = some (strUpper otype) ∧
    lookupKey "quantity" (createOrderBaseParams marketId side otype amount price
      timestamp extras) = some (floatStr amount) ∧
    lookupKey "timestamp" (createOrderBaseParams marketId side otype amount price
      timestamp extras) = some (natStr timestamp) ∧
    lookupKey "recvWindow" (createOrderBaseParams marketId side otype amount price
      timestamp extras) = some "60000" := by
  cases price with
  | none =>
    refine ⟨?_, ?_, ?_, ?_, ?_, ?_⟩ <;> simp [createOrderBaseParams, lookupKey]
  | some p =>
    by_cases hc : p ≠ 0 ∧ strUpper otype = "LIMIT"
    · refine ⟨?_, ?_, ?_, ?_, ?_, ?_⟩ <;>
        (simp only [createOrderBaseParams]; rw [if_pos hc]; simp [lookupKey])
    · refine ⟨?_, ?_, ?_, ?_, ?_, ?_⟩ <;>
        (simp only [createOrderBaseParams]; rw [if_neg hc]; simp [lookupKey])

theorem orderBase_price_pos (marketId side otype : String) (amount p : ℚ)
    (timestamp : Nat) (extras : List (String × String))
    (hne : p ≠ 0) (hup : strUpper otype = "LIMIT") :
    lookupKey "price" (createOrderBaseParams marketId side otype amount (some p)
      timestamp extras) = some (floatStr p) ∧
    lookupKey "timeInForce" (createOrderBaseParams marketId side otype amount
      (some p) timestamp extras) =
      some ((lookupKey "timeInForce" extras).getD "GTC") := by
  constructor <;>
    (simp only [createOrderBaseParams]; rw [if_pos ⟨hne, hup⟩]; simp [lookupKey])

theorem orderBase_price_neg (marketId side otype : String) (amount : ℚ)
    (price : Option ℚ) (timestamp : Nat) (extras : List (String × String))
    (h : priceTruthy price = false ∨ strUpper otype ≠ "LIMIT") :
    lookupKey "price" (createOrderBaseParams marketId side otype amount price
      timestamp extras) = none ∧
    lookupKey "timeInForce" (createOrderBaseParams marketId side otype amount
      price timestamp extras) = none := by
  cases price with
  | none => constructor <;> simp [createOrderBaseParams, lookupKey]
  | some p =>
    have hc : ¬(p ≠ 0 ∧ strUpper otype = "LIMIT") := by
      rcases h with h | h
      · intro hand
        have hz : p = 0 := by
          by_contra hne
          simp [priceTruthy, hne] at h
        exact hand.1 hz
      · intro hand; exact h hand.2
    constructor <;>
      (simp only [createOrderBaseParams]; rw [if_neg hc]; simp [lookupKey])

/-- Claim C7 counterexample: a zero price is a supplied price, and with the
    order type limit the claim as stated requires price and timeInForce in
    the parameter set; the source checks Python truthiness of the price
    instead and adds neither. -/
theorem c7_counterexample :
    (some (0 : ℚ)).isSome = true ∧ strUpper "limit" = "LIMIT" ∧
    lookupKey "price"
      (createOrderParams "BTCUSDT" "buy" "limit" 1 (some 0) 1000 []) = none ∧
    lookupKey "timeInForce"
      (createOrderParams "BTCUSDT" "buy" "limit" 1 (some 0) 1000 []) = none := by
  refine ⟨rfl, by decide, by decide, by decide⟩

/-- Claim C7 (amended): the required order parameter set always carries the
    market identifier, upper-cased side and type, stringified quantity,
    timestamp and receive window; it carries a stringified price together
    with a timeInForce value (caller override honored, default GTC) exactly
    when the supplied price is truthy (neither absent nor zero) and the
    upper-cased type equals LIMIT. -/
theorem c7_order_params (marketId side otype : String) (amount : ℚ)
    (price : Option ℚ) (timestamp : Nat) (extras : List (String × String)) :
    lookupKey "symbol" (createOrderBaseParams marketId side otype amount price
      timestamp extras) = some marketId ∧
    lookupKey "side" (createOrderBaseParams marketId side otype amount price
      timestamp extras) = some (strUpper side) ∧
    lookupKey "type" (createOrderBaseParams marketId side otype amount price
      timestamp extras) = some (strUpper otype) ∧
    lookupKey "quantity" (createOrderBaseParams marketId side otype amount price
      timestamp extras) = some (floatStr amount) ∧
    lookupKey "timestamp" (createOrderBaseParams marketId side otype amount price
      timestamp extras) = some (natStr timestamp) ∧
    lookupKey "recvWindow" (createOrderBaseParams marketId side otype amount price
      timestamp extras) = some "60000" ∧
    (∀ p : ℚ, price = some p → p ≠ 0 → strUpper otype = "LIMIT" →
      lookupKey "price" (createOrderBaseParams marketId side otype amount price
        timestamp extras) = some (floatStr p) ∧
      lookupKey "timeInForce" (createOrderBaseParams marketId side otype amount
        price timestamp extras) =
        some ((lookupKey "timeInForce" extras).getD "GTC")) ∧
    ((priceTruthy price = false ∨ strUpper otype ≠ "LIMIT") →
      lookupKey "price" (createOrderBaseParams marketId side otype amount price
        timestamp extras) = none ∧
      lookupKey "timeInForce" (createOrderBaseParams marketId side otype amount
        price timestamp extras) = none) := by
  obtain ⟨s1, s2, s3, s4, s5, s6⟩ :=
    orderBase_core marketId side otype amount price timestamp extras
  refine ⟨s1, s2, s3, s4, s5, s6, ?_, ?_⟩
  · intro p hp hne hup
    subst hp
    exact orderBase_price_pos marketId side otype amount p timestamp extras hne hup
  · intro h
    exact orderBase_price_neg marketId side otype amount price timestamp extras h

/-- Claim C7 witness: a truthy price 5 with limit type yields the price and
    the default GTC timeInForce, alongside the market identifier. -/
theorem c7_order_params_witness :
    lookupKey "symbol"
      (createOrderBaseParams "BTCUSDT" "buy" "limit" 1 (some 5) 1000 []) =
      some "BTCUSDT" ∧
    lookupKey "price"
      (createOrderBaseParams "BTCUSDT" "buy" "limit" 1 (some 5) 1000 []) =
      some (floatStr 5) ∧
    lookupKey "timeInForce"
      (createOrderBaseParams "BTCUSDT" "buy" "limit" 1 (some 5) 1000 []) =
      some "GTC" := by
  obtain ⟨s1, _, _, _, _, _, hpos, _⟩ :=
    c7_order_params "BTCUSDT" "buy" "limit" 1 (some 5) 1000 []
  obtain ⟨hp, ht⟩ := hpos 5 rfl (by norm_num) (by decide)
  exact ⟨s1, hp, by rw [ht]; rfl⟩

/-- Claim C10: a falsy supplied price (absent or zero) is treated as no
    price: even for a limit order type, neither price nor timeInForce is
    added to the required set, and the signed set carries neither key unless
    the caller extras themselves contain it. -/
theorem c10_falsy_price (marketId side otype : String) (amount : ℚ)
    (price : Option ℚ) (timestamp : Nat) (extras : List (String × String))
    (hfalsy : price = none ∨ price = some 0) :
    (lookupKey "price" (createOrderBaseParams marketId side otype amount price
        timestamp extras) = none ∧
      lookupKey "timeInForce" (createOrderBaseParams marketId side otype amount
        price timestamp extras) = none) ∧
    (hasKey extras "price" = false →
      lookupKey "price" (createOrderParams marketId side otype amount price
        timestamp extras) = none) ∧
    (hasKey extras "timeInForce" = false →
      lookupKey "timeInForce" (createOrderParams marketId side otype amount
        price timestamp extras) = none) := by
  have hpt : priceTruthy price = false := by
    rcases hfalsy with h | h <;> subst h <;> simp [priceTruthy]
  have hbase := orderBase_price_neg marketId side otype amount price timestamp
    extras (Or.inl hpt)
  refine ⟨hbase, ?_, ?_⟩
  · intro hex
    show lookupKey "price" (mergeParams (createOrderBaseParams marketId side
      otype amount price timestamp extras) extras) = none
    rw [lookupKey_mergeParams_new _ extras _
      ((hasKey_eq_false_iff _ _).mpr hbase.1)]
    exact (hasKey_eq_false_iff _ _).mp hex
  · intro hex
    show lookupKey "timeInForce" (mergeParams (createOrderBaseParams marketId
      side otype amount price timestamp extras) extras) = none
    rw [lookupKey_mergeParams_new _ extras _
      ((hasKey_eq_false_iff _ _).mpr hbase.2)]
    exact (hasKey_eq_false_iff _ _).mp hex

/-- Claim C10 witness: price zero with limit type and extras without price
    or timeInForce keys produce a signed set carrying neither key. -/
theorem c10_falsy_price_witness :
    lookupKey "price" (createOrderBaseParams "BTCUSDT" "buy" "limit" 1 (some 0)
      1000 [("reduceOnly", "true")]) = none ∧
    lookupKey "price" (createOrderParams "BTCUSDT" "buy" "limit" 1 (some 0)
      1000 [("reduceOnly", "true")]) = none ∧
    lookupKey "timeInForce" (createOrderParams "BTCUSDT" "buy" "limit" 1
      (some 0) 1000 [("reduceOnly", "true")]) = none := by
  have h := c10_falsy_price "BTCUSDT" "buy" "limit" 1 (some 0) 1000
    [("reduceOnly", "true")] (Or.inr rfl)
  exact ⟨h.1.1, h.2.1 (by decide), h.2.2 (by decide)⟩

/-- Claim C8 (amended): for a fixed secret and fixed parameter set the
    computed HMAC-SHA256 hex signature is stable and reproducible; and two
    signed payloads differing in the timestamp value produce different
    canonical query strings, hence different HMAC inputs.  Equality of the
    signatures themselves for different inputs is not excluded, since the
    digest space is finite. -/
theorem c8_signature_stability :
    (∀ (s1 s2 : String) (p1 p2 : List (String × String)),
      s1 = s2 → p1 = p2 → signQuery s1 p1 = signQuery s2 p2) ∧
    (∀ t1 t2 : Nat, t1 ≠ t2 →
      urlencode (readPayload t1) ≠ urlencode (readPayload t2)) := by
  constructor
  · intro s1 s2 p1 p2 hs hp; rw [hs, hp]
  · intro t1 t2 hne heq
    apply hne
    have e1 : ∀ t : Nat, urlencode (readPayload t) =
        quotePlus "timestamp" ++ "=" ++ quotePlus (natStr t) ++ "&" ++
          (quotePlus "recvWindow" ++ "=" ++ quotePlus "60000") := fun t => rfl
    rw [e1 t1, e1 t2, quotePlus_natStr, quotePlus_natStr] at heq
    have hdata := congrArg String.data heq
    simp only [String.data_append] at hdata
    have h1 := List.append_cancel_right hdata
    have h2 := List.append_cancel_right h1
    have h3 := List.append_cancel_left h2
    have h4 : natStr t1 = natStr t2 := congrArg String.mk h3
    exact natStr_inj t1 t2 h4

/-- Claim C8 witness: the signature of a fixed payload is equal to itself at
    the concrete timestamp, and the timestamps 1 and 2 give different query
    strings. -/
theorem c8_signature_stability_witness :
    signQuery "secret" (readPayload 1700000000000) =
      signQuery "secret" (readPayload 1700000000000) ∧
    urlencode (readPayload 1) ≠ urlencode (readPayload 2) := by
  have h := c8_signature_stability
  exact ⟨h.1 "secret" "secret" (readPayload 1700000000000)
    (readPayload 1700000000000) rfl rfl, h.2 1 2 (by decide)⟩

/-- Claim C8 counterexample: the signature is a 256-bit digest, so among the
    infinitely many payloads that agree on keys and differ in the timestamp
    value two must share a signature; the claim that any two parameter sets
    differing in some value have different signatures is therefore false. -/
theorem c8_counterexample :
    ¬ (∀ p1 p2 : List (String × String),
        p1.map Prod.fst = p2.map Prod.fst → p1 ≠ p2 →
        signQuery "secret" p1 ≠ signQuery "secret" p2) := by
  intro hclaim
  obtain ⟨t1, t2, hne, heq⟩ :=
    Finite.exists_ne_map_eq_of_infinite
      (fun t : Nat => hashWordsFin (hmacSha256 (strBytes "secret")
        (strBytes (urlencode (readPayload t)))))
  have hh : hmacSha256 (strBytes "secret")
        (strBytes (urlencode (readPayload t1))) =
      hmacSha256 (strBytes "secret")
        (strBytes (urlencode (readPayload t2))) :=
    hash8_eq_of_fin _ _ (hmacSha256_bounded _ _) (hmacSha256_bounded _ _) heq
  have hsig : signQuery "secret" (readPayload t1) =
      signQuery "secret" (readPayload t2) := congrArg hashHex hh
  have hkeys : (readPayload t1).map Prod.fst =
      (readPayload t2).map Prod.fst := rfl
  have hpne : readPayload t1 ≠ readPayload t2 := by
    intro he
    apply hne
    have hfirst : natStr t1 = natStr t2 := by
      have hl := congrArg (fun l => lookupKey "timestamp" l) he
      simpa [readPayload, lookupKey] using hl
    exact natStr_inj t1 t2 hfirst
  exact hclaim (readPayload t1) (readPayload t2) hkeys hpne hsig

end ExchangeFactory
